import Mathlib

set_option linter.unusedVariables false

/-!
Shallow embedding of the NetCommand core (netcommandlib) translated from the
Python sources: the version comparator (`version.py`), the upgrade orchestrator
(`upgrade.py`), the prompt-wait engine (`connection.py`), and the
`TelnetConnection` reopen path.  Strings are modelled as `List Char` (device
output is decoded text; byte-level encoding is not modelled — the engine
decodes permissively with `errors="ignore"`, so chunks are represented
post-decoding).  Theorems at the end settle the frozen claims.
-/

/-- Python exceptions raised by the embedded code. -/
inductive PyErr where
  | valueError
  | commandError
  | attributeError (cls attr : String)
deriving DecidableEq, Repr

deriving instance DecidableEq for Except

/-! ## Python string primitives (structural, over `List Char`) -/

/-- Whitespace recognized by Python `str.strip()` (ASCII set; exotic Unicode
spaces are not modelled — no claim involves them). -/
def pySpace (c : Char) : Bool :=
  c = ' ' || c = '\t' || c = '\n' || c = '\r' || c = Char.ofNat 11 || c = Char.ofNat 12

/-- Python `str.strip()`: drop leading and trailing whitespace. -/
def pyStrip (l : List Char) : List Char :=
  ((l.dropWhile pySpace).reverse.dropWhile pySpace).reverse

/-- Python `str.split(sep)` for a one-character separator (never returns an
empty list; `"".split(".") == [""]`). -/
def splitOnChar (sep : Char) : List Char → List Char → List (List Char)
  | [], acc => [acc.reverse]
  | c :: rest, acc =>
    if c = sep then acc.reverse :: splitOnChar sep rest []
    else splitOnChar sep rest (c :: acc)

/-- Python `int(x)` modelled as decimal digit parsing: faithful for segments
made of ASCII digits (all a well-formed dotted version contains); any other
segment — including the empty one — raises `ValueError`, modelled as `none`. -/
def parseNatDigits (l : List Char) : Option Nat :=
  match l with
  | [] => none
  | _ => l.foldl
      (fun acc c => match acc with
        | none => none
        | some n => if c.isDigit then some (n * 10 + (c.toNat - 48)) else none)
      (some 0)

/-- Line-boundary characters of Python `str.splitlines`. -/
def isLineBreak (c : Char) : Bool :=
  c = '\n' || c = '\r' || c = Char.ofNat 11 || c = Char.ofNat 12 ||
  c = Char.ofNat 28 || c = Char.ofNat 29 || c = Char.ofNat 30 ||
  c = Char.ofNat 133 || c = Char.ofNat 8232 || c = Char.ofNat 8233

/-- Worker for `pySplitlines`; `acc` holds the current line reversed.  `\r\n`
counts as a single boundary; a trailing unterminated line is included and a
trailing boundary does not produce an empty final line. -/
def pySplitlinesAux : List Char → List Char → List (List Char)
  | [], acc => if acc.isEmpty then [] else [acc.reverse]
  | '\r' :: '\n' :: rest, acc => acc.reverse :: pySplitlinesAux rest []
  | c :: rest, acc =>
    if isLineBreak c then acc.reverse :: pySplitlinesAux rest []
    else pySplitlinesAux rest (c :: acc)

/-- Python `str.splitlines()`. -/
def pySplitlines (l : List Char) : List (List Char) := pySplitlinesAux l []

/-- Index of the last occurrence of `c` (for Python `str.rfind`). -/
def rfindAux (c : Char) : List Char → Option Nat
  | [] => none
  | x :: rest =>
    match rfindAux c rest with
    | some j => some (j + 1)
    | none => if x = c then some 0 else none

/-- Python `s.rfind(c)`: last index of `c`, or `-1` when absent. -/
def pyRfind (l : List Char) (c : Char) : Int :=
  match rfindAux c l with
  | some j => (j : Int)
  | none => -1

/-- Python slice `l[start:stop]` with a possibly negative `stop`
(a negative `stop` counts from the end, as in `l[m:-1]`). -/
def pySlice (l : List Char) (start : Nat) (stop : Int) : List Char :=
  let stopN : Nat := if stop < 0 then ((l.length : Int) + stop).toNat else stop.toNat
  (l.take stopN).drop start

/-! ## Version comparator (netcommandlib/version.py, lines 61-76) -/

/-- Segment parsing shared by `compare_version` and its spec rendering:
`a.strip().split("-")[0]` then `[int(x) for x in a.split(".")]`. -/
def parseVersion (s : String) : Option (List Nat) :=
  (splitOnChar '.' ((splitOnChar '-' (pyStrip s.data) []).headD []) []).mapM parseNatDigits

/-- Right-padding with zeros: `a_parts += [0] * (max_parts - len(a_parts))`. -/
def padRight (l : List Nat) (m : Nat) : List Nat :=
  l ++ List.replicate (m - l.length) 0

/-- The comparison loop of `compare_version`:
`for idx in range(max_parts): if a>b return 1; if a<b return -1`, then
`return 0`.  At the call site both lists have equal length (after padding). -/
def cmp_parts : List Nat → List Nat → Int
  | a :: as, b :: bs => if a > b then 1 else if a < b then -1 else cmp_parts as bs
  | _, _ => 0

/-- `netcommandlib/version.py::compare_version`.  A `ValueError` from `int()`
on a non-numeric segment is modelled by the `Except.error` branch. -/
def compare_version (a b : String) : Except PyErr Int :=
  match parseVersion a, parseVersion b with
  | some as, some bs =>
    let m := max as.length bs.length
    Except.ok (cmp_parts (padRight as m) (padRight bs m))
  | _, _ => Except.error PyErr.valueError

/-- First non-equal segment pair of two (equal-length) segment lists. -/
def firstDiff : List Nat → List Nat → Option (Nat × Nat)
  | a :: as, b :: bs => if a = b then firstDiff as bs else some (a, b)
  | _, _ => none

/-- Reference comparator following the spec's words: strip any `-suffix`
pre-release tag, split on `.`, parse each segment as a non-negative integer
(parse error on non-numeric segments), zero-pad the shorter sequence on the
right, and let the first non-equal segment decide the result. -/
def compare_version_spec (a b : String) : Option Int := do
  let as ← parseVersion a
  let bs ← parseVersion b
  let m := max as.length bs.length
  match firstDiff (padRight as m) (padRight bs m) with
  | some (x, y) => if x > y then some 1 else some (-1)
  | none => some 0

/-! ## Upgrade orchestrator (netcommandlib/upgrade.py) -/

/-- An upgrade artifact (netcommandlib/image.py): only the fields the
orchestrator inspects. -/
structure GenericImage where
  version : String
  platform : String
deriving DecidableEq, Repr

/-- The device model as seen through the Model interface by `generic_upgrade`:
the values its getters return before and after the `upgrade` call, and the
outcomes of `save_config` (which raises `CommandError` on failure) and
`upgrade` (which returns a boolean). -/
structure ModelSpec where
  platform : String
  softwareVersion : String
  firmwareVersion : String
  saveConfigRaises : Bool
  upgradeResult : Bool
  postSoftwareVersion : String
  postFirmwareVersion : String
deriving DecidableEq, Repr

/-- Trace of Model-interface calls made by `generic_upgrade`, in order.
Logging is not modelled; `get_platform()` occurrences inside log-message
f-strings are omitted, but the `reportSuccess` events record which version
string the success log lines report. -/
inductive MCall where
  | get_software_version
  | get_firmware_version
  | get_platform
  | save_config (dry_run : Bool)
  | upgrade (dry_run : Bool)
  | reportSuccess (fromVersion toVersion : String)
deriving DecidableEq, Repr

/-- The device-mutating calls in a trace (`save_config` and `upgrade`). -/
def mutations (tr : List MCall) : List MCall :=
  tr.filter fun c => match c with
    | MCall.save_config _ => true
    | MCall.upgrade _ => true
    | _ => false

/-- Calls recorded after the `model.upgrade` call in a trace (empty when the
trace contains no `upgrade` call). -/
def callsAfterUpgrade (tr : List MCall) : List MCall :=
  match tr.dropWhile (fun c => match c with | MCall.upgrade _ => false | _ => true) with
  | [] => []
  | _ :: rest => rest

/-- The `for extra_image in extra_images` loop of `generic_upgrade`
(upgrade.py:41-62).  Returns `some result` when the loop body returns early
(platform mismatch, lower version, or equal version), `none` when the loop runs
to completion, paired with the trace of `get_platform` calls it makes (one per
iteration, from the `extra_image.platform != model.get_platform()` test). -/
def extra_images_check (model : ModelSpec) (current_version : String) :
    List GenericImage → Option (Except PyErr Bool) × List MCall
  | [] => (none, [])
  | e :: rest =>
    if e.platform ≠ model.platform then (some (Except.ok false), [MCall.get_platform])
    else
      match compare_version e.version current_version with
      | Except.error er => (some (Except.error er), [MCall.get_platform])
      | Except.ok c =>
        if c < 0 then (some (Except.ok false), [MCall.get_platform])
        else if c < 1 then (some (Except.ok true), [MCall.get_platform])
        else
          let pr := extra_images_check model current_version rest
          (pr.1, MCall.get_platform :: pr.2)

/-- `netcommandlib/upgrade.py::generic_upgrade`, returning the Python result
(`Except` models a raised exception) together with the trace of Model calls.
`compare_version` is pure, so the two successive calls on the same arguments at
upgrade.py:28 and :34 (and :49/:56) are evaluated once here. -/
def generic_upgrade (model : ModelSpec) (image : GenericImage)
    (extra_images : List GenericImage) (dry_run : Bool) :
    Except PyErr Bool × List MCall :=
  let current_version := model.softwareVersion
  let tr := [MCall.get_software_version, MCall.get_firmware_version, MCall.get_platform]
  if image.platform ≠ model.platform then (Except.ok false, tr)
  else
    match compare_version image.version current_version with
    | Except.error er => (Except.error er, tr)
    | Except.ok c =>
      if c < 0 then (Except.ok false, tr)
      else if c < 1 then (Except.ok true, tr)
      else
        let pr := extra_images_check model current_version extra_images
        match pr.1 with
        | some r => (r, tr ++ pr.2)
        | none =>
          let tr := tr ++ pr.2 ++ [MCall.save_config dry_run]
          if model.saveConfigRaises then (Except.error PyErr.commandError, tr)
          else
            let tr := tr ++ [MCall.upgrade dry_run]
            if !model.upgradeResult then (Except.ok false, tr)
            else
              let updated_version := model.postSoftwareVersion
              let tr := tr ++ [MCall.get_software_version, MCall.get_firmware_version]
              if dry_run then
                (Except.ok true, tr ++ [MCall.reportSuccess current_version image.version])
              else
                match compare_version updated_version image.version with
                | Except.error er => (Except.error er, tr)
                | Except.ok c2 =>
                  if c2 = 0 then
                    (Except.ok true, tr ++ [MCall.reportSuccess current_version updated_version])
                  else
                    match compare_version current_version updated_version with
                    | Except.error er => (Except.error er, tr)
                    | Except.ok _ => (Except.ok false, tr)

/-! ## Prompt-wait engine (netcommandlib/connection.py, lines 58-120) -/

/-- Outcome of the row callback for one line (`connection.py::Actions` plus the
Python conventions of `wait_prompt_with_callback`: `Actions.BREAK` stops
waiting, a `str` result is sent as a reply, anything else — `None` — is
ignored). -/
inductive RowAction where
  | noAction
  | reply (s : List Char)
  | breakAction
deriving DecidableEq, Repr

/-- Observable events of one engine run, in chronological order.  `recv` is a
non-empty poll result, `idle` an empty one (`time.sleep(1)` path);
`promptChecked` marks each evaluation of the `data.endswith(prompt)` test;
`rowApplied` one callback invocation; `sent` one `send_function` call;
`promptMatched` the successful prompt test that ends the run. -/
inductive Event where
  | recv (chunk : List Char)
  | idle
  | promptChecked
  | promptMatched
  | rowApplied (row : List Char) (action : RowAction)
  | sent (data : List Char)
deriving DecidableEq, Repr

/-- How a modelled run ended.  `scriptExhausted` is a model artifact: the
scripted receive sequence ran out while the Python loop would keep polling. -/
inductive WaitStatus where
  | promptExit
  | breakExit
  | timeoutError
  | scriptExhausted
deriving DecidableEq, Repr

structure WaitResult where
  status : WaitStatus
  text : List Char
  atPrompt : Bool
  finalData : List Char
  events : List Event
deriving DecidableEq, Repr

/-- The `for row in data.strip().splitlines(): ...` body of
`wait_prompt_with_callback` (connection.py:104-112): classify each row in
order; `Actions.BREAK` sets `break_out` and stops; a string reply is sent via
`send_function` (encoded verbatim — no newline is appended).  Returns the
events of the pass and the final `break_out` flag. -/
def processRows (f : List Char → RowAction) : List (List Char) → List Event × Bool
  | [] => ([], false)
  | row :: rest =>
    match f row with
    | RowAction.breakAction => ([Event.rowApplied row RowAction.breakAction], true)
    | RowAction.reply s =>
      let pr := processRows f rest
      (Event.rowApplied row (RowAction.reply s) :: Event.sent s :: pr.1, pr.2)
    | RowAction.noAction =>
      let pr := processRows f rest
      (Event.rowApplied row RowAction.noAction :: pr.1, pr.2)

/-- `connection.py::wait_prompt_with_callback` run against a scripted receive
sequence: each list entry is what one `receive_function(8192)` poll returns
(`[]` = no data, which sleeps one second and bumps `times_sleep`; the counter
is never reset).  State arguments mirror the Python locals `data` and
`times_sleep`; the event trace is chronological (this poll's events, then the
rest of the run). -/
def wait_prompt_with_callback (prompt : List Char) (timeout : Nat)
    (row_callback : Option (List Char → RowAction)) (min_input_length : Nat) :
    List (List Char) → List Char → Nat → WaitResult
  | [], data, _ =>
    { status := WaitStatus.scriptExhausted, text := data, atPrompt := false,
      finalData := data, events := [] }
  | chunk :: rest, data, times_sleep =>
    if chunk.isEmpty then
      if times_sleep + 1 > timeout then
        { status := WaitStatus.timeoutError, text := [], atPrompt := false,
          finalData := data, events := [Event.idle] }
      else
        let r := wait_prompt_with_callback prompt timeout row_callback min_input_length
          rest data (times_sleep + 1)
        { r with events := Event.idle :: r.events }
    else
      let d := data ++ chunk
      if min_input_length < d.length then
        if prompt.isSuffixOf d || (prompt ++ [' ']).isSuffixOf d then
          { status := WaitStatus.promptExit,
            text := pySlice d min_input_length (pyRfind d '\n'),
            atPrompt := true, finalData := d,
            events := [Event.recv chunk, Event.promptChecked, Event.promptMatched] }
        else
          match row_callback with
          | some f =>
            let pr := processRows f (pySplitlines (pyStrip d))
            if pr.2 then
              { status := WaitStatus.breakExit, text := d, atPrompt := false,
                finalData := d,
                events := [Event.recv chunk, Event.promptChecked] ++ pr.1 }
            else
              let r := wait_prompt_with_callback prompt timeout row_callback
                min_input_length rest d times_sleep
              { r with events := [Event.recv chunk, Event.promptChecked] ++ pr.1 ++ r.events }
          | none =>
            let r := wait_prompt_with_callback prompt timeout row_callback
              min_input_length rest d times_sleep
            { r with events := [Event.recv chunk, Event.promptChecked] ++ r.events }
      else
        let r := wait_prompt_with_callback prompt timeout row_callback min_input_length
          rest d times_sleep
        { r with events := Event.recv chunk :: r.events }

/-- `connection.py::cli_run_interactive`: send the command, then wait for the
prompt with `min_input_length = len(binary_command) + 1`.  The initial command
transmission is recorded as a leading `sent` event. -/
def cli_run_interactive (binary_command prompt : List Char) (timeout : Nat)
    (row_callback : Option (List Char → RowAction))
    (script : List (List Char)) : WaitResult :=
  let r := wait_prompt_with_callback prompt timeout row_callback
    (binary_command.length + 1) script [] 0
  { r with events := Event.sent binary_command :: r.events }

/-- The rows the run hands to the callback, in order, read off the event trace. -/
def appliedRows (evs : List Event) : List (List Char) :=
  evs.filterMap fun e => match e with
    | Event.rowApplied r _ => some r
    | _ => none

/-- The data transmitted through `send_function` during the run, in order. -/
def sentData (evs : List Event) : List (List Char) :=
  evs.filterMap fun e => match e with
    | Event.sent s => some s
    | _ => none

/-- The reply strings the callback returned during the run, in order. -/
def repliesOf (evs : List Event) : List (List Char) :=
  evs.filterMap fun e => match e with
    | Event.rowApplied _ (RowAction.reply s) => some s
    | _ => none

/-- The number of empty polls in a script. -/
def countEmpty (script : List (List Char)) : Nat :=
  script.countP fun c => c.isEmpty

/-- Rows of one callback pass, up to and including the first `BREAK` row. -/
def upToFirstBreak (f : List Char → RowAction) : List (List Char) → List (List Char)
  | [] => []
  | r :: rest =>
    if f r = RowAction.breakAction then [r] else r :: upToFirstBreak f rest

/-- Closed-form description of which rows the engine hands to the callback:
in every poll iteration with new data, a buffer longer than
`min_input_length`, and no prompt match, the callback sees ALL lines of the
entire stripped accumulated buffer (lines from earlier polls are re-classified
and a trailing unterminated line is included), in order, cut short at the
first `BREAK`. -/
def callbackRowsSpec (f : List Char → RowAction) (prompt : List Char)
    (timeout min_input_length : Nat) :
    List (List Char) → List Char → Nat → List (List Char)
  | [], _, _ => []
  | chunk :: rest, data, times_sleep =>
    if chunk.isEmpty then
      if times_sleep + 1 > timeout then []
      else callbackRowsSpec f prompt timeout min_input_length rest data (times_sleep + 1)
    else
      let d := data ++ chunk
      if min_input_length < d.length then
        if prompt.isSuffixOf d || (prompt ++ [' ']).isSuffixOf d then []
        else
          let rows := pySplitlines (pyStrip d)
          if rows.any (fun r => decide (f r = RowAction.breakAction)) then
            upToFirstBreak f rows
          else
            upToFirstBreak f rows ++
              callbackRowsSpec f prompt timeout min_input_length rest d times_sleep
      else callbackRowsSpec f prompt timeout min_input_length rest d times_sleep

/-- The rows the claim says the callback sees: only the complete
newline-terminated lines received in each poll iteration (a partial line is
carried to the next poll and classified once, when its terminator arrives). -/
def claimCompletedLines : List (List Char) → List Char → List (List Char)
  | [], _ => []
  | chunk :: rest, pending =>
    let buf := pending ++ chunk
    match buf.getLast? with
    | none => claimCompletedLines rest pending
    | some c =>
      let ls := pySplitlines buf
      if isLineBreak c then ls ++ claimCompletedLines rest []
      else ls.dropLast ++ claimCompletedLines rest (ls.getLastD [])

/-- Engine variant written from the claim's wording for C9: the idle counter
counts CONSECUTIVE empty polls and is reset whenever data arrives.  Used only
to exhibit the divergence from the source behaviour. -/
def wait_prompt_consecutive (prompt : List Char) (timeout : Nat)
    (row_callback : Option (List Char → RowAction)) (min_input_length : Nat) :
    List (List Char) → List Char → Nat → WaitResult
  | [], data, _ =>
    { status := WaitStatus.scriptExhausted, text := data, atPrompt := false,
      finalData := data, events := [] }
  | chunk :: rest, data, idle_run =>
    if chunk.isEmpty then
      if idle_run + 1 > timeout then
        { status := WaitStatus.timeoutError, text := [], atPrompt := false,
          finalData := data, events := [Event.idle] }
      else
        let r := wait_prompt_consecutive prompt timeout row_callback min_input_length
          rest data (idle_run + 1)
        { r with events := Event.idle :: r.events }
    else
      let d := data ++ chunk
      if min_input_length < d.length then
        if prompt.isSuffixOf d || (prompt ++ [' ']).isSuffixOf d then
          { status := WaitStatus.promptExit,
            text := pySlice d min_input_length (pyRfind d '\n'),
            atPrompt := true, finalData := d,
            events := [Event.recv chunk, Event.promptChecked, Event.promptMatched] }
        else
          match row_callback with
          | some f =>
            let pr := processRows f (pySplitlines (pyStrip d))
            if pr.2 then
              { status := WaitStatus.breakExit, text := d, atPrompt := false,
                finalData := d,
                events := [Event.recv chunk, Event.promptChecked] ++ pr.1 }
            else
              let r := wait_prompt_consecutive prompt timeout row_callback
                min_input_length rest d 0
              { r with events := [Event.recv chunk, Event.promptChecked] ++ pr.1 ++ r.events }
          | none =>
            let r := wait_prompt_consecutive prompt timeout row_callback
              min_input_length rest d 0
            { r with events := [Event.recv chunk, Event.promptChecked] ++ r.events }
      else
        let r := wait_prompt_consecutive prompt timeout row_callback min_input_length
          rest d 0
        { r with events := Event.recv chunk :: r.events }

/-! ## TelnetConnection reopen path (netcommandlib/connection.py, 123-262) -/

/-- Method names defined in the `TelnetConnection` class body
(connection.py:123-262), in source order. -/
def telnetConnectionMethods : List String :=
  ["__init__", "channel", "connect", "run", "run_interactive", "upload_file",
   "close", "reopen", "expect_disconnect", "_send", "_receive", "_wait_prompt",
   "set_timeout"]

/-- Method names of the abstract `Connection` base class (connection.py:22-55). -/
def connectionMethods : List String :=
  ["run", "run_interactive", "upload_file", "close", "reopen", "connect",
   "expect_disconnect", "get_address"]

/-- Python attribute lookup for a method on a `TelnetConnection` instance
(resolution order: `TelnetConnection`, `Connection`, `object` — which adds no
relevant names). -/
def telnetHasMethod (name : String) : Bool :=
  telnetConnectionMethods.contains name || connectionMethods.contains name

/-- `TelnetConnection.reopen` (connection.py:220-223): close `_channel` if
set (no effect on the outcome), then evaluate `self._connect()`; the attribute
lookup is the first step of that call and raises `AttributeError` when the
name resolves nowhere. -/
def telnetReopen (channelOpen : Bool) : Except PyErr Unit :=
  if telnetHasMethod "_connect" then Except.ok ()
  else Except.error (PyErr.attributeError "TelnetConnection" "_connect")

/-- `TelnetConnection.expect_disconnect` (connection.py:225-228):
`close(); time.sleep(5); self.reopen()` (the sleep is not modelled). -/
def telnetExpectDisconnect (channelOpen : Bool) : Except PyErr Unit :=
  telnetReopen channelOpen

/-! ## Comparator and orchestrator lemmas -/

lemma cmp_parts_firstDiff : ∀ as bs : List Nat,
    cmp_parts as bs = (match firstDiff as bs with
      | some (x, y) => if x > y then (1 : Int) else -1
      | none => 0) := by
  intro as
  induction as with
  | nil => intro bs; cases bs <;> simp [cmp_parts, firstDiff]
  | cons a as ih =>
    intro bs
    cases bs with
    | nil => simp [cmp_parts, firstDiff]
    | cons b bs =>
      by_cases hab : a = b
      · subst hab; simp [cmp_parts, firstDiff, ih]
      · rcases Nat.lt_or_ge a b with h | h
        · simp [cmp_parts, firstDiff, hab, Nat.lt_asymm h, h]
        · have hgt : b < a := Nat.lt_of_le_of_ne h (fun he => hab he.symm)
          simp [cmp_parts, firstDiff, hab, hgt]

/-- C5: `compare_version` agrees with the spec's reference description on every
input (errors included), and the spec's three worked examples hold. -/
theorem c5_comparator_matches_spec :
    (∀ a b : String, ∀ r : Int,
        (compare_version a b = Except.ok r ↔ compare_version_spec a b = some r)) ∧
    compare_version "1.2" "1.2.0" = Except.ok 0 ∧
    compare_version "7.12.0" "7.13.0" = Except.ok (-1) ∧
    compare_version "1.0-beta" "1.0" = Except.ok 0 := by
  refine ⟨?_, by decide, by decide, by decide⟩
  intro a b r
  unfold compare_version compare_version_spec
  cases ha : parseVersion a <;> cases hb : parseVersion b <;>
    simp [ha, hb, cmp_parts_firstDiff]
  rcases h : firstDiff _ _ with _ | ⟨x, y⟩ <;> simp [h]
  by_cases hxy : y < x <;> simp [hxy]

/-- C1: an image whose version compares equal to the current version (on the
right platform) makes `generic_upgrade` return `True` with no `save_config`
and no `upgrade` call. -/
theorem c1_idempotent_skip (model : ModelSpec) (image : GenericImage)
    (extra_images : List GenericImage) (dry_run : Bool)
    (hplat : image.platform = model.platform)
    (hver : compare_version image.version model.softwareVersion = Except.ok 0) :
    (generic_upgrade model image extra_images dry_run).1 = Except.ok true ∧
    mutations (generic_upgrade model image extra_images dry_run).2 = [] := by
  have h1 : ¬ image.platform ≠ model.platform := fun h => h hplat
  simp [generic_upgrade, if_neg h1, hver, mutations]

theorem c1_witness :
    (generic_upgrade ⟨"arm", "7.12.0", "7.0", false, true, "7.12.0", "7.0"⟩
        ⟨"7.12", "arm"⟩ [] false).1 = Except.ok true ∧
    mutations (generic_upgrade ⟨"arm", "7.12.0", "7.0", false, true, "7.12.0", "7.0"⟩
        ⟨"7.12", "arm"⟩ [] false).2 = [] :=
  c1_idempotent_skip _ _ _ _ rfl (by decide)

lemma extra_images_check_passing (model : ModelSpec) (cv : String)
    (pre rest : List GenericImage)
    (hpre : ∀ x ∈ pre, x.platform = model.platform ∧
        compare_version x.version cv = Except.ok 1) :
    extra_images_check model cv (pre ++ rest) =
      ((extra_images_check model cv rest).1,
       List.replicate pre.length MCall.get_platform ++
         (extra_images_check model cv rest).2) := by
  induction pre with
  | nil => simp [extra_images_check]
  | cons e pre ih =>
    obtain ⟨hp, hv⟩ := hpre e (by simp)
    have h1 : ¬ e.platform ≠ model.platform := fun h => h hp
    simp only [List.cons_append, extra_images_check, if_neg h1, hv]
    rw [if_neg (by norm_num), if_neg (by norm_num)]
    simp [ih (fun x hx => hpre x (by simp [hx])), List.replicate_succ]

lemma mutations_append (a b : List MCall) :
    mutations (a ++ b) = mutations a ++ mutations b := List.filter_append _ _

lemma mutations_replicate_gp (n : Nat) :
    mutations (List.replicate n MCall.get_platform) = [] := by
  induction n with
  | zero => rfl
  | succ n ih => simp [List.replicate_succ, mutations]

/-- C4: the per-extra-image platform/version checks repeat the main checks
before any device mutation; a rejection (platform mismatch or lower version)
returns `False`, an equal version returns `True`, each with no mutation. -/
theorem c4_extra_image_checks (model : ModelSpec) (image : GenericImage)
    (pre : List GenericImage) (e : GenericImage) (rest : List GenericImage)
    (dry_run : Bool)
    (hplat : image.platform = model.platform)
    (hver : compare_version image.version model.softwareVersion = Except.ok 1)
    (hpre : ∀ x ∈ pre, x.platform = model.platform ∧
        compare_version x.version model.softwareVersion = Except.ok 1) :
    (e.platform ≠ model.platform →
        (generic_upgrade model image (pre ++ e :: rest) dry_run).1 = Except.ok false ∧
        mutations (generic_upgrade model image (pre ++ e :: rest) dry_run).2 = []) ∧
    (compare_version e.version model.softwareVersion = Except.ok (-1) →
        (generic_upgrade model image (pre ++ e :: rest) dry_run).1 = Except.ok false ∧
        mutations (generic_upgrade model image (pre ++ e :: rest) dry_run).2 = []) ∧
    (e.platform = model.platform →
     compare_version e.version model.softwareVersion = Except.ok 0 →
        (generic_upgrade model image (pre ++ e :: rest) dry_run).1 = Except.ok true ∧
        mutations (generic_upgrade model image (pre ++ e :: rest) dry_run).2 = []) := by
  have h1 : ¬ image.platform ≠ model.platform := fun h => h hplat
  have main : ∀ res : Except PyErr Bool,
      extra_images_check model model.softwareVersion (e :: rest) =
        (some res, [MCall.get_platform]) →
      (generic_upgrade model image (pre ++ e :: rest) dry_run).1 = res ∧
      mutations (generic_upgrade model image (pre ++ e :: rest) dry_run).2 = [] := by
    intro res hch
    simp only [generic_upgrade, if_neg h1, hver]
    rw [if_neg (by norm_num), if_neg (by norm_num),
      extra_images_check_passing model model.softwareVersion pre (e :: rest) hpre, hch]
    simp [mutations_append, mutations_replicate_gp, mutations]
  refine ⟨fun he => ?_, fun hv => ?_, fun hp hv => ?_⟩
  · exact main _ (by simp [extra_images_check, if_pos he])
  · by_cases hp : e.platform = model.platform
    · have h2 : ¬ e.platform ≠ model.platform := fun h => h hp
      refine main _ ?_
      simp only [extra_images_check, if_neg h2, hv]
      norm_num
    · exact main _ (by simp [extra_images_check, if_pos hp])
  · have h2 : ¬ e.platform ≠ model.platform := fun h => h hp
    refine main _ ?_
    simp only [extra_images_check, if_neg h2, hv]
    norm_num

theorem c4_witness :
    (generic_upgrade ⟨"arm", "7.12.0", "7.0", false, true, "7.12.0", "7.0"⟩
        ⟨"7.13.0", "arm"⟩ [⟨"7.13.0", "mips"⟩] false).1 = Except.ok false ∧
    mutations (generic_upgrade ⟨"arm", "7.12.0", "7.0", false, true, "7.12.0", "7.0"⟩
        ⟨"7.13.0", "arm"⟩ [⟨"7.13.0", "mips"⟩] false).2 = [] :=
  (c4_extra_image_checks _ _ [] ⟨"7.13.0", "mips"⟩ [] false rfl (by decide)
    (by simp)).1 (by decide)

/-- Under passing pre-checks, `generic_upgrade` runs its tail (save, upgrade,
re-query, post-check); this closed form is shared by the C2/C3 theorems. -/
lemma generic_upgrade_tail (model : ModelSpec) (image : GenericImage)
    (extra_images : List GenericImage) (dry_run : Bool)
    (hplat : image.platform = model.platform)
    (hver : compare_version image.version model.softwareVersion = Except.ok 1)
    (hex : ∀ x ∈ extra_images, x.platform = model.platform ∧
        compare_version x.version model.softwareVersion = Except.ok 1)
    (hsave : model.saveConfigRaises = false)
    (hupg : model.upgradeResult = true) :
    generic_upgrade model image extra_images dry_run =
      (let tr := [MCall.get_software_version, MCall.get_firmware_version,
          MCall.get_platform] ++
          List.replicate extra_images.length MCall.get_platform ++
          [MCall.save_config dry_run, MCall.upgrade dry_run,
           MCall.get_software_version, MCall.get_firmware_version]
       if dry_run then
         (Except.ok true,
          tr ++ [MCall.reportSuccess model.softwareVersion image.version])
       else
         match compare_version model.postSoftwareVersion image.version with
         | Except.error er => (Except.error er, tr)
         | Except.ok c2 =>
           if c2 = 0 then
             (Except.ok true,
              tr ++ [MCall.reportSuccess model.softwareVersion model.postSoftwareVersion])
           else
             match compare_version model.softwareVersion model.postSoftwareVersion with
             | Except.error er => (Except.error er, tr)
             | Except.ok _ => (Except.ok false, tr)) := by
  have h1 : ¬ image.platform ≠ model.platform := fun h => h hplat
  have hchk : extra_images_check model model.softwareVersion extra_images =
      ((extra_images_check model model.softwareVersion ([] : List GenericImage)).1,
       List.replicate extra_images.length MCall.get_platform ++
         (extra_images_check model model.softwareVersion ([] : List GenericImage)).2) := by
    simpa using extra_images_check_passing model model.softwareVersion extra_images [] hex
  simp only [generic_upgrade, if_neg h1, hver]
  rw [if_neg (by norm_num), if_neg (by norm_num), hchk]
  simp only [extra_images_check, hsave, hupg]
  cases dry_run <;> simp

lemma callsAfterUpgrade_calc (n : Nat) (d : Bool) (l : List MCall) :
    callsAfterUpgrade
      ([MCall.get_software_version, MCall.get_firmware_version, MCall.get_platform] ++
        List.replicate n MCall.get_platform ++
        ([MCall.save_config d, MCall.upgrade d] ++ l)) = l := by
  unfold callsAfterUpgrade
  induction n with
  | zero => simp [List.dropWhile]
  | succ n ih => simp [List.replicate_succ, List.dropWhile]

/-- C2 counterexample: on a dry run that passes all checks, the code DOES call
`get_software_version` (and `get_firmware_version`) after `model.upgrade`
returns — upgrade.py:77-78 run before the `dry_run` branch at line 80. -/
theorem c2_counterexample :
    (generic_upgrade ⟨"arm", "7.12.0", "7.0", false, true, "7.12.0", "7.0"⟩
        ⟨"7.13.0", "arm"⟩ [] true).1 = Except.ok true ∧
    MCall.get_software_version ∈
      callsAfterUpgrade (generic_upgrade
        ⟨"arm", "7.12.0", "7.0", false, true, "7.12.0", "7.0"⟩
        ⟨"7.13.0", "arm"⟩ [] true).2 := by decide

/-- C2 amended: the dry run reports success immediately with the intended
target version and returns `True`, but it still re-queries the software and
firmware versions once after `model.upgrade` (their values are unused). -/
theorem c2_dry_run_reports_target (model : ModelSpec) (image : GenericImage)
    (extra_images : List GenericImage)
    (hplat : image.platform = model.platform)
    (hver : compare_version image.version model.softwareVersion = Except.ok 1)
    (hex : ∀ x ∈ extra_images, x.platform = model.platform ∧
        compare_version x.version model.softwareVersion = Except.ok 1)
    (hsave : model.saveConfigRaises = false)
    (hupg : model.upgradeResult = true) :
    (generic_upgrade model image extra_images true).1 = Except.ok true ∧
    callsAfterUpgrade (generic_upgrade model image extra_images true).2 =
      [MCall.get_software_version, MCall.get_firmware_version,
       MCall.reportSuccess model.softwareVersion image.version] := by
  rw [generic_upgrade_tail model image extra_images true hplat hver hex hsave hupg]
  refine ⟨rfl, ?_⟩
  have h := callsAfterUpgrade_calc extra_images.length true
    [MCall.get_software_version, MCall.get_firmware_version,
     MCall.reportSuccess model.softwareVersion image.version]
  simpa [List.append_assoc] using h

theorem c2_witness :
    (generic_upgrade ⟨"arm", "7.12.0", "7.0", false, true, "7.12.0", "7.0"⟩
        ⟨"7.13.0", "arm"⟩ [] true).1 = Except.ok true ∧
    callsAfterUpgrade (generic_upgrade
        ⟨"arm", "7.12.0", "7.0", false, true, "7.12.0", "7.0"⟩
        ⟨"7.13.0", "arm"⟩ [] true).2 =
      [MCall.get_software_version, MCall.get_firmware_version,
       MCall.reportSuccess "7.12.0" "7.13.0"] :=
  c2_dry_run_reports_target _ _ _ rfl (by decide) (by simp) rfl rfl

lemma compare_version_ok_parse {a b : String} {c : Int}
    (h : compare_version a b = Except.ok c) :
    (parseVersion a).isSome ∧ (parseVersion b).isSome := by
  unfold compare_version at h
  cases ha : parseVersion a <;> cases hb : parseVersion b <;> simp [ha, hb] at h ⊢

lemma compare_version_ok_of_parse {a b : String}
    (ha : (parseVersion a).isSome) (hb : (parseVersion b).isSome) :
    ∃ r, compare_version a b = Except.ok r := by
  unfold compare_version
  obtain ⟨as, has⟩ := Option.isSome_iff_exists.mp ha
  obtain ⟨bs, hbs⟩ := Option.isSome_iff_exists.mp hb
  simp [has, hbs]

/-- C3 counterexample: a real run can return `True` although the re-queried
version string is NOT exactly `image.version` ("1.2" vs "1.2.0" — the
post-check uses `compare_version == 0`, not string equality). -/
theorem c3_counterexample :
    (generic_upgrade ⟨"arm", "1.0", "fw", false, true, "1.2", "fw"⟩
        ⟨"1.2.0", "arm"⟩ [] false).1 = Except.ok true ∧
    (⟨"arm", "1.0", "fw", false, true, "1.2", "fw"⟩ : ModelSpec).postSoftwareVersion ≠
      (⟨"1.2.0", "arm"⟩ : GenericImage).version := by decide

/-- C3 amended: on a real run that reaches the post-upgrade check, the verdict
is `True` iff `compare_version(updated, image.version) == 0`; every other
comparison outcome yields `False`. -/
theorem c3_post_check_compare_equality (model : ModelSpec) (image : GenericImage)
    (extra_images : List GenericImage) (c2 : Int)
    (hplat : image.platform = model.platform)
    (hver : compare_version image.version model.softwareVersion = Except.ok 1)
    (hex : ∀ x ∈ extra_images, x.platform = model.platform ∧
        compare_version x.version model.softwareVersion = Except.ok 1)
    (hsave : model.saveConfigRaises = false)
    (hupg : model.upgradeResult = true)
    (hc2 : compare_version model.postSoftwareVersion image.version = Except.ok c2) :
    ((generic_upgrade model image extra_images false).1 = Except.ok true ↔ c2 = 0) := by
  rw [generic_upgrade_tail model image extra_images false hplat hver hex hsave hupg]
  simp only [Bool.false_eq_true, if_false, hc2]
  by_cases h0 : c2 = 0
  · subst h0; simp
  · rw [if_neg h0]
    obtain ⟨r, hr⟩ := compare_version_ok_of_parse
      (compare_version_ok_parse hver).2 (compare_version_ok_parse hc2).1
    rw [hr]
    simp [h0]

theorem c3_witness :
    (generic_upgrade ⟨"arm", "7.12.0", "7.0", false, true, "7.13", "7.0"⟩
        ⟨"7.13.0", "arm"⟩ [] false).1 = Except.ok true :=
  (c3_post_check_compare_equality _ _ [] 0 rfl (by decide) (by simp) rfl rfl
    (by decide)).mpr rfl

/-- C10: `TelnetConnection.reopen` (and hence `expect_disconnect`) always
raises `AttributeError`: it calls `self._connect()`, but no `_connect` method
exists on `TelnetConnection` or its bases — the connect method is `connect`. -/
theorem c10_telnet_reopen_raises (channelOpen : Bool) :
    telnetReopen channelOpen =
      Except.error (PyErr.attributeError "TelnetConnection" "_connect") ∧
    telnetExpectDisconnect channelOpen =
      Except.error (PyErr.attributeError "TelnetConnection" "_connect") ∧
    telnetHasMethod "connect" = true ∧
    telnetHasMethod "_connect" = false := by
  cases channelOpen <;> exact ⟨by decide, by decide, by decide, by decide⟩

/-! ## Engine lemmas -/

lemma processRows_applied (f : List Char → RowAction) :
    ∀ rows, appliedRows (processRows f rows).1 = upToFirstBreak f rows := by
  intro rows
  induction rows with
  | nil => rfl
  | cons r rest ih =>
    cases hfr : f r <;>
      simp [processRows, hfr, appliedRows, upToFirstBreak, List.filterMap_cons] <;>
      simpa [appliedRows] using ih

lemma processRows_brk (f : List Char → RowAction) :
    ∀ rows, (processRows f rows).2 =
      rows.any fun r => decide (f r = RowAction.breakAction) := by
  intro rows
  induction rows with
  | nil => rfl
  | cons r rest ih =>
    cases hfr : f r <;> simp [processRows, hfr, ih]

lemma processRows_sent_replies (f : List Char → RowAction) :
    ∀ rows, sentData (processRows f rows).1 = repliesOf (processRows f rows).1 := by
  intro rows
  induction rows with
  | nil => rfl
  | cons r rest ih =>
    cases hfr : f r <;>
      simp [processRows, hfr, sentData, repliesOf, List.filterMap_cons] <;>
      simpa [sentData, repliesOf] using ih

lemma processRows_no_promptMatched (f : List Char → RowAction) :
    ∀ rows, Event.promptMatched ∉ (processRows f rows).1 := by
  intro rows
  induction rows with
  | nil => simp [processRows]
  | cons r rest ih =>
    cases hfr : f r <;> simp [processRows, hfr] <;> exact ih

/-- Whenever a run exits at the prompt, its final buffer exceeded
`min_input_length`, ended with the prompt (or prompt + one space), and the
returned text is `data[min_input_length:data.rfind("\n")]`. -/
lemma wpc_atPrompt_inv (prompt : List Char) (timeout : Nat)
    (cb : Option (List Char → RowAction)) (minLen : Nat) :
    ∀ (script : List (List Char)) (data : List Char) (ts : Nat),
      (wait_prompt_with_callback prompt timeout cb minLen script data ts).atPrompt = true →
      minLen < (wait_prompt_with_callback prompt timeout cb minLen script data ts).finalData.length ∧
      (prompt.isSuffixOf
          (wait_prompt_with_callback prompt timeout cb minLen script data ts).finalData ||
        (prompt ++ [' ']).isSuffixOf
          (wait_prompt_with_callback prompt timeout cb minLen script data ts).finalData) = true ∧
      (wait_prompt_with_callback prompt timeout cb minLen script data ts).text =
        pySlice (wait_prompt_with_callback prompt timeout cb minLen script data ts).finalData
          minLen
          (pyRfind (wait_prompt_with_callback prompt timeout cb minLen script data ts).finalData '\n') := by
  intro script
  induction script with
  | nil => intro data ts h; simp [wait_prompt_with_callback] at h
  | cons chunk rest ih =>
    intro data ts
    by_cases hempty : chunk.isEmpty
    · by_cases hto : ts + 1 > timeout
      · intro h; simp [wait_prompt_with_callback, hempty, hto] at h
      · simpa [wait_prompt_with_callback, hempty, hto] using ih data (ts + 1)
    · by_cases hlen : minLen < (data ++ chunk).length
      · have hlen' : minLen < data.length + chunk.length := by simpa using hlen
        by_cases hsuf : (prompt.isSuffixOf (data ++ chunk) ||
            (prompt ++ [' ']).isSuffixOf (data ++ chunk)) = true
        · intro _
          refine ⟨?_, ?_, ?_⟩ <;>
            simp [wait_prompt_with_callback, hempty, hlen, hlen', hsuf]
        · cases cb with
          | none =>
            simpa [wait_prompt_with_callback, hempty, hlen, hlen', hsuf] using
              ih (data ++ chunk) ts
          | some f =>
            by_cases hbrk : (processRows f (pySplitlines (pyStrip (data ++ chunk)))).2
            · intro h
              simp [wait_prompt_with_callback, hempty, hlen, hlen', hsuf, hbrk] at h
            · simpa [wait_prompt_with_callback, hempty, hlen, hlen', hsuf, hbrk] using
                ih (data ++ chunk) ts
      · have hlen' : ¬ minLen < data.length + chunk.length := by simpa using hlen
        simpa [wait_prompt_with_callback, hempty, hlen, hlen'] using ih (data ++ chunk) ts

/-- A run over non-empty chunks whose total buffer ends with the prompt (and
whose callback never stops the wait) exits at the prompt. -/
lemma wpc_reaches_prompt (prompt : List Char) (timeout : Nat)
    (cb : Option (List Char → RowAction)) (minLen : Nat)
    (hnb : ∀ f row, cb = some f → f row ≠ RowAction.breakAction) :
    ∀ (script : List (List Char)) (data : List Char) (ts : Nat),
      (∀ c ∈ script, c ≠ []) →
      (prompt.isSuffixOf (data ++ script.flatten) ||
        (prompt ++ [' ']).isSuffixOf (data ++ script.flatten)) = true →
      minLen < (data ++ script.flatten).length →
      script ≠ [] →
      (wait_prompt_with_callback prompt timeout cb minLen script data ts).atPrompt = true := by
  intro script
  induction script with
  | nil => intro data ts _ _ _ hcon; exact absurd rfl hcon
  | cons chunk rest ih =>
    intro data ts hne hsuf hlen _
    have hchunk : ¬ chunk.isEmpty := by
      simpa [List.isEmpty_iff] using hne chunk (by simp)
    have hjoin : data ++ (chunk :: rest).flatten = (data ++ chunk) ++ rest.flatten := by
      simp [List.flatten]
    rw [hjoin] at hsuf hlen
    by_cases hlen2 : minLen < (data ++ chunk).length
    · have hlen2' : minLen < data.length + chunk.length := by simpa using hlen2
      by_cases hsuf2 : (prompt.isSuffixOf (data ++ chunk) ||
          (prompt ++ [' ']).isSuffixOf (data ++ chunk)) = true
      · simp [wait_prompt_with_callback, hchunk, hlen2, hlen2', hsuf2]
      · cases rest with
        | nil =>
          simp only [List.flatten_nil, List.append_nil] at hsuf
          exact absurd hsuf hsuf2
        | cons c2 r2 =>
          cases cb with
          | none =>
            simpa [wait_prompt_with_callback, hchunk, hlen2, hlen2', hsuf2] using
              ih (data ++ chunk) ts (fun c hc => hne c (by simp [hc]))
                hsuf hlen (by simp)
          | some f =>
            have hbrk : (processRows f (pySplitlines (pyStrip (data ++ chunk)))).2 = false := by
              rw [processRows_brk]
              simp only [List.any_eq_false]
              intro r _
              simpa using hnb f r rfl
            simpa [wait_prompt_with_callback, hchunk, hlen2, hlen2', hsuf2, hbrk] using
              ih (data ++ chunk) ts (fun c hc => hne c (by simp [hc]))
                hsuf hlen (by simp)
    · have hlen2' : ¬ minLen < data.length + chunk.length := by simpa using hlen2
      cases rest with
      | nil =>
        exfalso
        apply hlen2
        simpa using hlen
      | cons c2 r2 =>
        simpa [wait_prompt_with_callback, hchunk, hlen2, hlen2'] using
          ih (data ++ chunk) ts (fun c hc => hne c (by simp [hc]))
            hsuf hlen (by simp)

lemma rfindAux_eq_none (c : Char) : ∀ l : List Char, c ∉ l → rfindAux c l = none := by
  intro l
  induction l with
  | nil => intro _; rfl
  | cons x rest ih =>
    intro h
    have hx : ¬ x = c := fun he => h (by simp [he])
    have hr : c ∉ rest := fun hm => h (by simp [hm])
    simp [rfindAux, ih hr, hx]

lemma rfind_decomp (c : Char) :
    ∀ l : List Char, c ∈ l →
      ∃ pre post, l = pre ++ c :: post ∧ c ∉ post ∧ rfindAux c l = some pre.length := by
  intro l
  induction l with
  | nil => simp
  | cons x rest ih =>
    intro hmem
    by_cases hr : c ∈ rest
    · obtain ⟨pre, post, hl, hpost, hfind⟩ := ih hr
      exact ⟨x :: pre, post, by simp [hl], hpost, by simp [rfindAux, hfind]⟩
    · have hx : x = c := by
        rcases List.mem_cons.mp hmem with h | h
        · exact h.symm
        · exact absurd h hr
      subst hx
      exact ⟨[], rest, rfl, hr, by simp [rfindAux, rfindAux_eq_none x rest hr]⟩

lemma pySlice_natStop (l : List Char) (m j : Nat) :
    pySlice l m (j : Int) = (l.take j).drop m := by
  have hj : ¬ ((j : Int) < 0) := Int.not_lt.mpr (Int.natCast_nonneg j)
  simp [pySlice, hj]

/-- C6: every prompt-reached run strips the echo prefix and trailing prompt:
it returns `reachedPrompt = true` and text equal to the final accumulated
buffer from index `min_input_length` up to (excluding) its last newline. -/
theorem c6_prompt_exit_strips (prompt : List Char) (timeout minLen : Nat)
    (cb : Option (List Char → RowAction)) (script : List (List Char))
    (hne : ∀ c ∈ script, c ≠ [])
    (hnb : ∀ f row, cb = some f → f row ≠ RowAction.breakAction)
    (hsuf : (prompt.isSuffixOf script.flatten ||
      (prompt ++ [' ']).isSuffixOf script.flatten) = true)
    (hlen : minLen < script.flatten.length) :
    (wait_prompt_with_callback prompt timeout cb minLen script [] 0).atPrompt = true ∧
    minLen <
      (wait_prompt_with_callback prompt timeout cb minLen script [] 0).finalData.length ∧
    (prompt.isSuffixOf
        (wait_prompt_with_callback prompt timeout cb minLen script [] 0).finalData ||
      (prompt ++ [' ']).isSuffixOf
        (wait_prompt_with_callback prompt timeout cb minLen script [] 0).finalData) = true ∧
    ('\n' ∈ (wait_prompt_with_callback prompt timeout cb minLen script [] 0).finalData →
      ∃ pre post,
        (wait_prompt_with_callback prompt timeout cb minLen script [] 0).finalData =
          pre ++ '\n' :: post ∧
        '\n' ∉ post ∧
        (wait_prompt_with_callback prompt timeout cb minLen script [] 0).text =
          pre.drop minLen) := by
  have hscript : script ≠ [] := by
    intro h
    subst h
    simp at hlen
  have hat : (wait_prompt_with_callback prompt timeout cb minLen script [] 0).atPrompt = true :=
    wpc_reaches_prompt prompt timeout cb minLen hnb script [] 0 hne
      (by simpa using hsuf) (by simpa using hlen) hscript
  obtain ⟨h1, h2, h3⟩ := wpc_atPrompt_inv prompt timeout cb minLen script [] 0 hat
  refine ⟨hat, h1, h2, fun hmem => ?_⟩
  obtain ⟨pre, post, hdec, hpost, hfind⟩ :=
    rfind_decomp '\n' (wait_prompt_with_callback prompt timeout cb minLen script [] 0).finalData hmem
  refine ⟨pre, post, hdec, hpost, ?_⟩
  rw [h3]
  unfold pyRfind
  rw [hfind, pySlice_natStop, hdec, List.take_left]

theorem c6_witness :
    (wait_prompt_with_callback ">".data 5 none 4
      ["ls\r\n".data, "file1\r\n".data, "> ".data] [] 0).atPrompt = true :=
  (c6_prompt_exit_strips ">".data 5 4 none
    ["ls\r\n".data, "file1\r\n".data, "> ".data]
    (by decide) (fun f row h => nomatch h) (by decide) (by decide)).1

/-- C7 counterexample: with two polls `"a\n"`, `"b\n"` the callback is applied
to `a`, then to `a` AND `b` (the whole buffer is re-split each poll), while
the claim predicts one application per completed line (`a`, then `b`). -/
theorem c7_counterexample :
    appliedRows (wait_prompt_with_callback "#".data 5
        (some fun _ => RowAction.noAction) 0 ["a\n".data, "b\n".data] [] 0).events =
      [['a'], ['a'], ['b']] ∧
    claimCompletedLines ["a\n".data, "b\n".data] [] = [['a'], ['b']] ∧
    appliedRows (wait_prompt_with_callback "#".data 5
        (some fun _ => RowAction.noAction) 0 ["a\n".data, "b\n".data] [] 0).events ≠
      claimCompletedLines ["a\n".data, "b\n".data] [] := by
  refine ⟨by decide, by decide, by decide⟩

lemma appliedRows_append (a b : List Event) :
    appliedRows (a ++ b) = appliedRows a ++ appliedRows b := List.filterMap_append _ _ _

lemma appliedRows_recv (c : List Char) (l : List Event) :
    appliedRows (Event.recv c :: l) = appliedRows l := rfl

lemma appliedRows_idle (l : List Event) :
    appliedRows (Event.idle :: l) = appliedRows l := rfl

lemma appliedRows_promptChecked (l : List Event) :
    appliedRows (Event.promptChecked :: l) = appliedRows l := rfl

lemma appliedRows_promptMatched (l : List Event) :
    appliedRows (Event.promptMatched :: l) = appliedRows l := rfl

lemma appliedRows_nil : appliedRows [] = [] := rfl

/-- C7 amended: in every poll iteration with new data, a buffer above
`min_input_length` and no prompt match, the callback is applied to ALL lines
of the stripped accumulated buffer (earlier lines re-classified, trailing
unterminated line included), in order, cut short at the first BREAK. -/
theorem c7_callback_sees_whole_buffer (f : List Char → RowAction)
    (prompt : List Char) (timeout minLen : Nat) :
    ∀ (script : List (List Char)) (data : List Char) (ts : Nat),
      appliedRows
        (wait_prompt_with_callback prompt timeout (some f) minLen script data ts).events =
      callbackRowsSpec f prompt timeout minLen script data ts := by
  intro script
  induction script with
  | nil => intro data ts; rfl
  | cons chunk rest ih =>
    intro data ts
    by_cases hempty : chunk.isEmpty
    · by_cases hto : ts + 1 > timeout
      · simp [wait_prompt_with_callback, callbackRowsSpec, hempty, hto,
          appliedRows_idle, appliedRows_nil]
      · simpa [wait_prompt_with_callback, callbackRowsSpec, hempty, hto,
          appliedRows_idle] using ih data (ts + 1)
    · by_cases hlen : minLen < (data ++ chunk).length
      · have hlen2 : minLen < data.length + chunk.length := by simpa using hlen
        by_cases hsuf : (prompt.isSuffixOf (data ++ chunk) ||
            (prompt ++ [' ']).isSuffixOf (data ++ chunk)) = true
        · simp [wait_prompt_with_callback, callbackRowsSpec, hempty, hlen, hlen2,
            hsuf, appliedRows_recv, appliedRows_promptChecked,
            appliedRows_promptMatched, appliedRows_nil]
        · by_cases hbrk : (processRows f (pySplitlines (pyStrip (data ++ chunk)))).2
          · have hany : (pySplitlines (pyStrip (data ++ chunk))).any
                (fun r => decide (f r = RowAction.breakAction)) = true := by
              rw [← processRows_brk]; exact hbrk
            simp [wait_prompt_with_callback, callbackRowsSpec, hempty, hlen, hlen2,
              hsuf, hbrk, hany, appliedRows_recv, appliedRows_promptChecked,
              appliedRows_append, processRows_applied]
          · have hany : (pySplitlines (pyStrip (data ++ chunk))).any
                (fun r => decide (f r = RowAction.breakAction)) = false := by
              rw [← processRows_brk]; simpa using hbrk
            simp [wait_prompt_with_callback, callbackRowsSpec, hempty, hlen, hlen2,
              hsuf, hbrk, hany, appliedRows_recv, appliedRows_promptChecked,
              appliedRows_append, processRows_applied, ih (data ++ chunk) ts]
      · have hlen2 : ¬ minLen < data.length + chunk.length := by simpa using hlen
        simpa [wait_prompt_with_callback, callbackRowsSpec, hempty, hlen, hlen2,
          appliedRows_recv] using ih (data ++ chunk) ts

lemma sentData_append (a b : List Event) :
    sentData (a ++ b) = sentData a ++ sentData b := List.filterMap_append _ _ _

lemma repliesOf_append (a b : List Event) :
    repliesOf (a ++ b) = repliesOf a ++ repliesOf b := List.filterMap_append _ _ _

/-- Everything a run transmits is exactly the callback's reply strings, in
order and verbatim (no newline or any other terminator is appended). -/
lemma wpc_sent_eq_replies (prompt : List Char) (timeout : Nat)
    (cb : Option (List Char → RowAction)) (minLen : Nat) :
    ∀ (script : List (List Char)) (data : List Char) (ts : Nat),
      sentData (wait_prompt_with_callback prompt timeout cb minLen script data ts).events =
      repliesOf (wait_prompt_with_callback prompt timeout cb minLen script data ts).events := by
  intro script
  induction script with
  | nil => intro data ts; rfl
  | cons chunk rest ih =>
    intro data ts
    by_cases hempty : chunk.isEmpty
    · by_cases hto : ts + 1 > timeout
      · simp [wait_prompt_with_callback, hempty, hto, sentData, repliesOf]
      · simpa [wait_prompt_with_callback, hempty, hto, sentData, repliesOf,
          List.filterMap_cons] using ih data (ts + 1)
    · by_cases hlen : minLen < (data ++ chunk).length
      · have hlen2 : minLen < data.length + chunk.length := by simpa using hlen
        by_cases hsuf : (prompt.isSuffixOf (data ++ chunk) ||
            (prompt ++ [' ']).isSuffixOf (data ++ chunk)) = true
        · simp [wait_prompt_with_callback, hempty, hlen, hlen2, hsuf, sentData,
            repliesOf]
        · cases cb with
          | none =>
            simpa [wait_prompt_with_callback, hempty, hlen, hlen2, hsuf, sentData,
              repliesOf, List.filterMap_cons] using ih (data ++ chunk) ts
          | some f =>
            by_cases hbrk : (processRows f (pySplitlines (pyStrip (data ++ chunk)))).2
            · have hpr := processRows_sent_replies f (pySplitlines (pyStrip (data ++ chunk)))
              simpa [wait_prompt_with_callback, hempty, hlen, hlen2, hsuf, hbrk,
                sentData_append, repliesOf_append, sentData, repliesOf,
                List.filterMap_cons] using hpr
            · have hpr := processRows_sent_replies f (pySplitlines (pyStrip (data ++ chunk)))
              have hih := ih (data ++ chunk) ts
              simp only [wait_prompt_with_callback, hempty, Bool.false_eq_true,
                if_false, hlen, hlen2, if_true, hsuf, hbrk]
              simp [sentData_append, repliesOf_append, sentData, repliesOf,
                List.filterMap_cons, List.filterMap_append] at hpr hih ⊢
              simp [hpr, hih]
      · have hlen2 : ¬ minLen < data.length + chunk.length := by simpa using hlen
        simpa [wait_prompt_with_callback, hempty, hlen, hlen2, sentData,
          repliesOf, List.filterMap_cons] using ih (data ++ chunk) ts

/-- `promptMatched` is recorded only as the last event of a prompt-reached
run; a run that does not reach the prompt never records it.  Hence every
`sent` event precedes the successful prompt-match evaluation. -/
lemma wpc_promptMatched_last (prompt : List Char) (timeout : Nat)
    (cb : Option (List Char → RowAction)) (minLen : Nat) :
    ∀ (script : List (List Char)) (data : List Char) (ts : Nat),
      ((wait_prompt_with_callback prompt timeout cb minLen script data ts).atPrompt = true →
        ∃ l, (wait_prompt_with_callback prompt timeout cb minLen script data ts).events =
            l ++ [Event.promptMatched] ∧ Event.promptMatched ∉ l) ∧
      ((wait_prompt_with_callback prompt timeout cb minLen script data ts).atPrompt = false →
        Event.promptMatched ∉
          (wait_prompt_with_callback prompt timeout cb minLen script data ts).events) := by
  intro script
  induction script with
  | nil =>
    intro data ts
    constructor
    · intro h; simp [wait_prompt_with_callback] at h
    · intro _; simp [wait_prompt_with_callback]
  | cons chunk rest ih =>
    intro data ts
    by_cases hempty : chunk.isEmpty
    · by_cases hto : ts + 1 > timeout
      · constructor
        · intro h; simp [wait_prompt_with_callback, hempty, hto] at h
        · intro _; simp [wait_prompt_with_callback, hempty, hto]
      · constructor
        · intro hat
          simp only [wait_prompt_with_callback, hempty, if_true, hto, if_false] at hat ⊢
          obtain ⟨l, hl, hnl⟩ := (ih data (ts + 1)).1 (by simpa using hat)
          exact ⟨Event.idle :: l, by simp [hl], by simp [hnl]⟩
        · intro hat
          simp only [wait_prompt_with_callback, hempty, if_true, hto, if_false] at hat ⊢
          have := (ih data (ts + 1)).2 (by simpa using hat)
          simp [this]
    · by_cases hlen : minLen < (data ++ chunk).length
      · have hlen2 : minLen < data.length + chunk.length := by simpa using hlen
        by_cases hsuf : (prompt.isSuffixOf (data ++ chunk) ||
            (prompt ++ [' ']).isSuffixOf (data ++ chunk)) = true
        · constructor
          · intro _
            refine ⟨[Event.recv chunk, Event.promptChecked], ?_, by simp⟩
            simp [wait_prompt_with_callback, hempty, hlen, hlen2, hsuf]
          · intro hat
            simp [wait_prompt_with_callback, hempty, hlen, hlen2, hsuf] at hat
        · cases cb with
          | none =>
            constructor
            · intro hat
              simp only [wait_prompt_with_callback, hempty, Bool.false_eq_true,
                if_false, hlen, hlen2, if_true, hsuf] at hat ⊢
              obtain ⟨l, hl, hnl⟩ := (ih (data ++ chunk) ts).1 (by simpa using hat)
              exact ⟨Event.recv chunk :: Event.promptChecked :: l,
                by simp [hl], by simp [hnl]⟩
            · intro hat
              simp only [wait_prompt_with_callback, hempty, Bool.false_eq_true,
                if_false, hlen, hlen2, if_true, hsuf] at hat ⊢
              have := (ih (data ++ chunk) ts).2 (by simpa using hat)
              simp [this]
          | some f =>
            by_cases hbrk : (processRows f (pySplitlines (pyStrip (data ++ chunk)))).2
            · constructor
              · intro hat
                simp [wait_prompt_with_callback, hempty, hlen, hlen2, hsuf, hbrk] at hat
              · intro _
                simp only [wait_prompt_with_callback, hempty, Bool.false_eq_true,
                  if_false, hlen, hlen2, if_true, hsuf, hbrk]
                have := processRows_no_promptMatched f (pySplitlines (pyStrip (data ++ chunk)))
                simp [this]
            · constructor
              · intro hat
                simp only [wait_prompt_with_callback, hempty, Bool.false_eq_true,
                  if_false, hlen, hlen2, if_true, hsuf, hbrk] at hat ⊢
                obtain ⟨l, hl, hnl⟩ := (ih (data ++ chunk) ts).1 (by simpa using hat)
                refine ⟨Event.recv chunk :: Event.promptChecked ::
                  ((processRows f (pySplitlines (pyStrip (data ++ chunk)))).1 ++ l), ?_, ?_⟩
                · simp [hl]
                · have := processRows_no_promptMatched f (pySplitlines (pyStrip (data ++ chunk)))
                  simp [this, hnl]
              · intro hat
                simp only [wait_prompt_with_callback, hempty, Bool.false_eq_true,
                  if_false, hlen, hlen2, if_true, hsuf, hbrk] at hat ⊢
                have h1 := (ih (data ++ chunk) ts).2 (by simpa using hat)
                have h2 := processRows_no_promptMatched f (pySplitlines (pyStrip (data ++ chunk)))
                simp [h1, h2]
      · have hlen2 : ¬ minLen < data.length + chunk.length := by simpa using hlen
        constructor
        · intro hat
          simp only [wait_prompt_with_callback, hempty, Bool.false_eq_true,
            if_false, hlen, hlen2] at hat ⊢
          obtain ⟨l, hl, hnl⟩ := (ih (data ++ chunk) ts).1 (by simpa using hat)
          exact ⟨Event.recv chunk :: l, by simp [hl], by simp [hnl]⟩
        · intro hat
          simp only [wait_prompt_with_callback, hempty, Bool.false_eq_true,
            if_false, hlen, hlen2] at hat ⊢
          have := (ih (data ++ chunk) ts).2 (by simpa using hat)
          simp [this]

/-- C8 counterexample: the engine transmits the reply exactly as the callback
returned it — `"secret"`, not `"secret\n"`; no newline is appended. -/
theorem c8_counterexample :
    sentData (wait_prompt_with_callback "#".data 5
        (some fun row => if row = "Password:".data then RowAction.reply "secret".data
          else RowAction.noAction) 0 ["Password: ".data] [] 0).events =
      ["secret".data] ∧
    ("secret".data).getLast? ≠ some '\n' := by
  refine ⟨by decide, by decide⟩

/-- C8 amended: every transmission during the wait is the callback's reply
text verbatim (the answer tables embed the newline themselves), and a
successful prompt match is always the last event of the run, so every reply
was sent before it. -/
theorem c8_reply_sent_verbatim (prompt : List Char) (timeout : Nat)
    (cb : Option (List Char → RowAction)) (minLen : Nat) (script : List (List Char)) :
    sentData (wait_prompt_with_callback prompt timeout cb minLen script [] 0).events =
      repliesOf (wait_prompt_with_callback prompt timeout cb minLen script [] 0).events ∧
    ((wait_prompt_with_callback prompt timeout cb minLen script [] 0).atPrompt = true →
      ∃ l, (wait_prompt_with_callback prompt timeout cb minLen script [] 0).events =
          l ++ [Event.promptMatched] ∧ Event.promptMatched ∉ l) :=
  ⟨wpc_sent_eq_replies prompt timeout cb minLen script [] 0,
   (wpc_promptMatched_last prompt timeout cb minLen script [] 0).1⟩

theorem c8_witness :
    sentData (wait_prompt_with_callback "#".data 5
        (some fun row => if row = "Password:".data then RowAction.reply "secret\n".data
          else RowAction.noAction) 0
        ["Password: ".data, "\r\nwelcome\r\n#".data] [] 0).events =
      repliesOf (wait_prompt_with_callback "#".data 5
        (some fun row => if row = "Password:".data then RowAction.reply "secret\n".data
          else RowAction.noAction) 0
        ["Password: ".data, "\r\nwelcome\r\n#".data] [] 0).events ∧
    ∃ l, (wait_prompt_with_callback "#".data 5
        (some fun row => if row = "Password:".data then RowAction.reply "secret\n".data
          else RowAction.noAction) 0
        ["Password: ".data, "\r\nwelcome\r\n#".data] [] 0).events =
        l ++ [Event.promptMatched] ∧ Event.promptMatched ∉ l :=
  ⟨(c8_reply_sent_verbatim "#".data 5 _ 0 _).1,
   (c8_reply_sent_verbatim "#".data 5 _ 0 _).2 (by decide)⟩

/-- C9 counterexample: with `timeout = 1` and polls empty, data, empty, the
source engine times out (the idle counter is cumulative, never reset by the
data poll), while an engine that counts CONSECUTIVE idle polls — the claim's
reading — does not time out on this sequence. -/
theorem c9_counterexample :
    (wait_prompt_with_callback "#".data 1 none 0 [[], "a".data, []] [] 0).status =
      WaitStatus.timeoutError ∧
    (wait_prompt_consecutive "#".data 1 none 0 [[], "a".data, []] [] 0).status ≠
      WaitStatus.timeoutError := by
  refine ⟨by decide, by decide⟩

lemma wpc_no_timeout (prompt : List Char) (timeout : Nat)
    (cb : Option (List Char → RowAction)) (minLen : Nat) :
    ∀ (script : List (List Char)) (data : List Char) (ts : Nat),
      ts + countEmpty script ≤ timeout →
      (wait_prompt_with_callback prompt timeout cb minLen script data ts).status ≠
        WaitStatus.timeoutError := by
  intro script
  induction script with
  | nil => intro data ts _; simp [wait_prompt_with_callback]
  | cons chunk rest ih =>
    intro data ts hcnt
    by_cases hempty : chunk.isEmpty
    · have hcnt' : (ts + 1) + countEmpty rest ≤ timeout := by
        simp only [countEmpty, List.countP_cons] at hcnt ⊢
        simp [hempty] at hcnt
        omega
      have hto : ¬ ts + 1 > timeout := by omega
      simpa [wait_prompt_with_callback, hempty, hto] using ih data (ts + 1) hcnt'
    · have hcnt' : ts + countEmpty rest ≤ timeout := by
        simp only [countEmpty, List.countP_cons] at hcnt ⊢
        simp [hempty] at hcnt
        omega
      by_cases hlen : minLen < (data ++ chunk).length
      · have hlen2 : minLen < data.length + chunk.length := by simpa using hlen
        by_cases hsuf : (prompt.isSuffixOf (data ++ chunk) ||
            (prompt ++ [' ']).isSuffixOf (data ++ chunk)) = true
        · simp [wait_prompt_with_callback, hempty, hlen, hlen2, hsuf]
        · cases cb with
          | none =>
            simpa [wait_prompt_with_callback, hempty, hlen, hlen2, hsuf] using
              ih (data ++ chunk) ts hcnt'
          | some f =>
            by_cases hbrk : (processRows f (pySplitlines (pyStrip (data ++ chunk)))).2
            · simp [wait_prompt_with_callback, hempty, hlen, hlen2, hsuf, hbrk]
            · simpa [wait_prompt_with_callback, hempty, hlen, hlen2, hsuf, hbrk] using
                ih (data ++ chunk) ts hcnt'
      · have hlen2 : ¬ minLen < data.length + chunk.length := by simpa using hlen
        simpa [wait_prompt_with_callback, hempty, hlen, hlen2] using
          ih (data ++ chunk) ts hcnt'

lemma wpc_replicate_empty_timeout (prompt : List Char) (timeout : Nat)
    (cb : Option (List Char → RowAction)) (minLen : Nat) :
    ∀ (n : Nat) (data : List Char) (ts : Nat), ts ≤ timeout →
      ((wait_prompt_with_callback prompt timeout cb minLen
          (List.replicate n []) data ts).status = WaitStatus.timeoutError ↔
        timeout < n + ts) := by
  intro n
  induction n with
  | zero =>
    intro data ts hts
    simp [wait_prompt_with_callback]
    omega
  | succ n ih =>
    intro data ts hts
    by_cases hto : ts + 1 > timeout
    · simp [wait_prompt_with_callback, List.replicate_succ, hto]
      omega
    · have := ih data (ts + 1) (by omega)
      simp only [List.replicate_succ, wait_prompt_with_callback, List.isEmpty_nil,
        if_true, hto, if_false] at this ⊢
      rw [this]
      omega

/-- C9 amended: the engine's idle budget is CUMULATIVE: a run whose script has
at most `timeout` empty polls never raises the idle timeout (wherever they
fall), and a script of `n` empty polls raises it exactly when `n > timeout`
(i.e. on the `(timeout+1)`-th idle cycle); the counter is never reset when
data arrives in between. -/
theorem c9_cumulative_idle_timeout (prompt : List Char) (timeout : Nat)
    (cb : Option (List Char → RowAction)) (minLen : Nat) :
    (∀ (script : List (List Char)) (data : List Char),
      countEmpty script ≤ timeout →
      (wait_prompt_with_callback prompt timeout cb minLen script data 0).status ≠
        WaitStatus.timeoutError) ∧
    (∀ n : Nat,
      ((wait_prompt_with_callback prompt timeout cb minLen
          (List.replicate n []) [] 0).status = WaitStatus.timeoutError ↔
        timeout < n)) := by
  constructor
  · intro script data hcnt
    exact wpc_no_timeout prompt timeout cb minLen script data 0 (by simpa using hcnt)
  · intro n
    simpa using wpc_replicate_empty_timeout prompt timeout cb minLen n [] 0
      (Nat.zero_le _)

theorem c9_witness :
    (wait_prompt_with_callback "#".data 5 none 0 [[], "a".data, []] [] 0).status ≠
      WaitStatus.timeoutError ∧
    (wait_prompt_with_callback "#".data 1 none 0 (List.replicate 2 []) [] 0).status =
      WaitStatus.timeoutError :=
  ⟨(c9_cumulative_idle_timeout "#".data 5 none 0).1 [[], "a".data, []] [] (by decide),
   ((c9_cumulative_idle_timeout "#".data 1 none 0).2 2).mpr (by decide)⟩
